import Mathlib

/-!
Verification of the bucket-listing request handler in `src/app.py`.

The handler (`lambda_handler`) logs the incoming event, builds an S3 client,
calls `s3.list_buckets()`, extracts `bucket['Name']` for each record in
`response['Buckets']`, and answers `{'statusCode': 200, 'body': json.dumps(...)}`;
any exception raised inside the `try` block is converted into a
`{'statusCode': 500, ...}` answer whose body embeds `str(e)`.

The development embeds the JSON values the handler manipulates, the relevant
behaviour of Python's `json.dumps` (default separators, `ensure_ascii=True`
escaping), Python dict subscription / iteration (so that malformed service
responses raising `KeyError` are representable), and a JSON reader standing in
for `json.loads`, used to state the round-trip properties of the response body.
-/

/-- JSON values, as produced by the service response and consumed by
`json.dumps`.  `obj` models a Python `dict` as an association list in insertion
order; dict keys are unique in any value that models a real Python object. -/
inductive JVal where
  | null : JVal
  | bool (b : Bool) : JVal
  | num (n : Int) : JVal
  | str (s : String) : JVal
  | arr (items : List JVal) : JVal
  | obj (members : List (String × JVal)) : JVal

/-- The opening brace character, written via its code point. -/
def lbrace : Char := Char.ofNat 123

/-- The closing brace character, written via its code point. -/
def rbrace : Char := Char.ofNat 125

/-- Hexadecimal digit characters `0`-`9`, `a`-`f`, as emitted by
`json.dumps`'s `\uXXXX` escapes (lowercase). -/
def hexDigit (n : Nat) : Char :=
  if n < 10 then Char.ofNat (48 + n) else Char.ofNat (87 + n)

/-- The four hex digits of `n < 0x10000`, most significant first. -/
def toHex4 (n : Nat) : List Char :=
  [hexDigit (n / 4096 % 16), hexDigit (n / 256 % 16), hexDigit (n / 16 % 16), hexDigit (n % 16)]

/-- How `json.dumps` (with the default `ensure_ascii=True`) renders one
character of a string: the two-character escapes of `ESCAPE_DCT`, printable
ASCII verbatim, every other code point below `0x10000` as `\uXXXX`, and
code points above as a UTF-16 surrogate pair. -/
def escapeChar (c : Char) : List Char :=
  if c = '"' then ['\\', '"']
  else if c = '\\' then ['\\', '\\']
  else if c = '\n' then ['\\', 'n']
  else if c = '\t' then ['\\', 't']
  else if c = '\r' then ['\\', 'r']
  else if c.toNat = 8 then ['\\', 'b']
  else if c.toNat = 12 then ['\\', 'f']
  else if 0x20 ≤ c.toNat ∧ c.toNat ≤ 0x7e then [c]
  else if c.toNat < 0x10000 then '\\' :: 'u' :: toHex4 c.toNat
  else
    ('\\' :: 'u' :: toHex4 (0xD800 + (c.toNat - 0x10000) / 0x400)) ++
    ('\\' :: 'u' :: toHex4 (0xDC00 + (c.toNat - 0x10000) % 0x400))

/-- The escaped rendering of a whole character sequence. -/
def escList (cs : List Char) : List Char := (cs.map escapeChar).flatten

/-- `json.dumps` applied to a string: a double-quoted, escaped rendering. -/
def encodeStr (s : String) : List Char := '"' :: escList s.data ++ ['"']

/-- Decimal digits of a natural number, most significant first. -/
def natDigits (n : Nat) : List Char :=
  if _h : n < 10 then [Char.ofNat (48 + n)]
  else natDigits (n / 10) ++ [Char.ofNat (48 + n % 10)]

/-- Decimal rendering of an integer, as `json.dumps` emits Python ints. -/
def intDigits (n : Int) : List Char :=
  if n < 0 then '-' :: natDigits n.natAbs else natDigits n.toNat

mutual
/-- The character sequence `json.dumps` produces for a value, with the default
separators `', '` and `': '` and no indentation. -/
def dumpsL : JVal → List Char
  | .null => "null".data
  | .bool true => "true".data
  | .bool false => "false".data
  | .num n => intDigits n
  | .str s => encodeStr s
  | .arr items => '[' :: dumpsList items ++ [']']
  | .obj members => lbrace :: dumpsMembers members ++ [rbrace]

/-- Array elements joined by `', '`. -/
def dumpsList : List JVal → List Char
  | [] => []
  | [v] => dumpsL v
  | v :: rest => dumpsL v ++ ',' :: ' ' :: dumpsList rest

/-- Object members, each rendered `"key": value`, joined by `', '`. -/
def dumpsMembers : List (String × JVal) → List Char
  | [] => []
  | [(k, v)] => encodeStr k ++ ':' :: ' ' :: dumpsL v
  | (k, v) :: rest => encodeStr k ++ ':' :: ' ' :: dumpsL v ++ ',' :: ' ' :: dumpsMembers rest
end

/-- `json.dumps` as a string-valued function. -/
def dumps (v : JVal) : String := String.mk (dumpsL v)

/-- A raised Python exception, as observable through `str(e)`:
`KeyError` from a failed dict subscription, `TypeError` from a misuse of a
value, and service-client failures (authorization, network, service error)
raised by the SDK call. -/
inductive PyErr where
  | keyError (key : String) : PyErr
  | typeError (msg : String) : PyErr
  | clientError (msg : String) : PyErr

/-- Python's `str(e)`.  `str` of a `KeyError` is the `repr` of the missing
key, hence the surrounding single quotes. -/
def PyErr.text : PyErr → String
  | .keyError k => "'" ++ k ++ "'"
  | .typeError m => m
  | .clientError m => m

/-- Python dict subscription `v[k]`: the value stored under `k`, a
`KeyError` when the key is absent, a `TypeError` when `v` is not a dict. -/
def getItem (v : JVal) (k : String) : Except PyErr JVal :=
  match v with
  | .obj members => match members.lookup k with
    | some x => .ok x
    | none => .error (.keyError k)
  | _ => .error (.typeError "value is not subscriptable by string keys")

/-- Python iteration `for x in v`: lists yield their elements, dicts their
keys, strings their one-character substrings; other values are not iterable. -/
def iterate (v : JVal) : Except PyErr (List JVal) :=
  match v with
  | .arr items => .ok items
  | .obj members => .ok (members.map fun kv => JVal.str kv.1)
  | .str s => .ok (s.data.map fun c => JVal.str (String.singleton c))
  | _ => .error (.typeError "value is not iterable")

/-- The body of the list comprehension: each `bucket['Name']` in turn
(`src/app.py` line 30). -/
def extractNames : List JVal → Except PyErr (List JVal)
  | [] => .ok []
  | b :: rest => do
    let n ← getItem b "Name"
    let others ← extractNames rest
    .ok (n :: others)

/-- `[bucket['Name'] for bucket in response['Buckets']]`
(`src/app.py` line 30). -/
def listComp (response : JVal) : Except PyErr (List JVal) := do
  let bs ← getItem response "Buckets"
  let items ← iterate bs
  extractNames items

/-- The handler's return value: a dict `{'statusCode': ..., 'body': ...}`
(`src/app.py` lines 32-38 and 41-46). -/
structure ResponseEnvelope where
  statusCode : Nat
  body : String
  deriving DecidableEq

/-- The 200 body, `json.dumps({'message': 'Successfully retrieved buckets',
'buckets': buckets})` (`src/app.py` lines 34-37). -/
def successBody (buckets : List JVal) : String :=
  dumps (.obj [("message", .str "Successfully retrieved buckets"), ("buckets", .arr buckets)])

/-- The 500 body, `json.dumps({'message': f'Error listing buckets: {str(e)}'})`
(`src/app.py` lines 43-45). -/
def errorBody (e : PyErr) : String :=
  dumps (.obj [("message", .str ("Error listing buckets: " ++ e.text))])

/-- The `try` block of `src/app.py` lines 25-38, given the outcome of the
`s3.list_buckets()` call: bind the response, run the comprehension, build
the 200 envelope; any raised exception surfaces as `.error`. -/
def tryBody (call : Except PyErr JVal) : Except PyErr ResponseEnvelope := do
  let response ← call
  let buckets ← listComp response
  .ok ⟨200, successBody buckets⟩

/-- The whole `try`/`except` statement (`src/app.py` lines 25-46): every
exception raised in the `try` block is caught and mapped to the 500 envelope. -/
def handleListBuckets (call : Except PyErr JVal) : ResponseEnvelope :=
  match tryBody call with
  | .ok env => env
  | .error e => ⟨500, errorBody e⟩

/-- The invocation event: either a JSON-serializable value, or an object
(identified by its type name) that `json.dumps` rejects. -/
inductive PyObj where
  | jsonLike (v : JVal) : PyObj
  | unserializable (tyName : String) : PyObj

/-- Models `print("Received event:", json.dumps(event, indent=2))`
(`src/app.py` line 20): the printed text is not observable, but
`json.dumps` raises `TypeError` on a non-serializable event. -/
def logEvent : PyObj → Except PyErr Unit
  | .jsonLike _ => .ok ()
  | .unserializable tyName =>
      .error (.typeError ("Object of type " ++ tyName ++ " is not JSON serializable"))

/-- The environment of one invocation: whether `boto3.client('s3')`
(`src/app.py` line 23) succeeds, and the outcome of `s3.list_buckets()`
(`src/app.py` line 27). -/
structure S3World where
  clientResult : Except PyErr Unit
  listBuckets : Except PyErr JVal

/-- `lambda_handler` (`src/app.py` lines 4-46): log the event, build the
client — both outside the `try` block, so their exceptions propagate — then
run the guarded bucket listing. -/
def lambda_handler (event : PyObj) (w : S3World) : Except PyErr ResponseEnvelope := do
  let _ ← logEvent event
  let _ ← w.clientResult
  .ok (handleListBuckets w.listBuckets)

/-- Numeric value of a hexadecimal digit character. -/
def hexVal (c : Char) : Option Nat :=
  if 48 ≤ c.toNat ∧ c.toNat ≤ 57 then some (c.toNat - 48)
  else if 97 ≤ c.toNat ∧ c.toNat ≤ 102 then some (c.toNat - 87)
  else if 65 ≤ c.toNat ∧ c.toNat ≤ 70 then some (c.toNat - 55)
  else none

/-- Numeric value of four hexadecimal digits, most significant first. -/
def hex4 (h1 h2 h3 h4 : Char) : Option Nat := do
  let a ← hexVal h1
  let b ← hexVal h2
  let c ← hexVal h3
  let d ← hexVal h4
  some (a * 4096 + b * 256 + c * 16 + d)

/-- JSON insignificant whitespace. -/
def isWsC (c : Char) : Bool := c = ' ' || c = '\n' || c = '\t' || c = '\r'

/-- ASCII decimal digit test. -/
def isDigitC (c : Char) : Bool := 48 ≤ c.toNat && c.toNat ≤ 57

/-- Drop leading JSON whitespace. -/
def skipWs : List Char → List Char
  | [] => []
  | c :: rest => if isWsC c then skipWs rest else c :: rest

/-- Prepend a decoded character to the result of reading the rest of a
string literal. -/
def consC (c : Char) : Option (List Char × List Char) → Option (List Char × List Char)
  | some (cs, rest) => some (c :: cs, rest)
  | none => none

/-- Decode a `\u` escape (the `\u` already consumed): four hex digits, and,
when they name a high surrogate, a second `\u` escape with the matching low
surrogate, combined into one code point as `json.loads` does.  Unpaired
surrogate escapes are rejected: they decode to no representable character.
`k` reads the remainder of the string literal. -/
def readU (k : List Char → Option (List Char × List Char)) :
    List Char → Option (List Char × List Char)
  | h1 :: h2 :: h3 :: h4 :: r3 =>
    match hex4 h1 h2 h3 h4 with
    | none => none
    | some n =>
      if 0xD800 ≤ n ∧ n ≤ 0xDBFF then
        match r3 with
        | '\\' :: 'u' :: g1 :: g2 :: g3 :: g4 :: r4 =>
          match hex4 g1 g2 g3 g4 with
          | none => none
          | some m =>
            if 0xDC00 ≤ m ∧ m ≤ 0xDFFF then
              consC (Char.ofNat (0x10000 + (n - 0xD800) * 0x400 + (m - 0xDC00))) (k r4)
            else none
        | _ => none
      else if 0xDC00 ≤ n ∧ n ≤ 0xDFFF then none
      else consC (Char.ofNat n) (k r3)
  | _ => none

/-- Read the remainder of a JSON string literal (the opening quote already
consumed), decoding the escape sequences `json.loads` accepts, up to the
closing quote.  The fuel argument only bounds the recursion; one unit is
spent per decoded character. -/
def readStrF : Nat → List Char → Option (List Char × List Char)
  | 0, _ => none
  | _ + 1, [] => none
  | fuel + 1, c :: r =>
    if c = '"' then some ([], r)
    else if c = '\\' then
      match r with
      | [] => none
      | d :: r2 =>
        if d = '"' then consC '"' (readStrF fuel r2)
        else if d = '\\' then consC '\\' (readStrF fuel r2)
        else if d = '/' then consC '/' (readStrF fuel r2)
        else if d = 'b' then consC (Char.ofNat 8) (readStrF fuel r2)
        else if d = 'f' then consC (Char.ofNat 12) (readStrF fuel r2)
        else if d = 'n' then consC '\n' (readStrF fuel r2)
        else if d = 'r' then consC '\r' (readStrF fuel r2)
        else if d = 't' then consC '\t' (readStrF fuel r2)
        else if d = 'u' then readU (readStrF fuel) r2
        else none
    else if c.toNat < 0x20 then none
    else consC c (readStrF fuel r)

/-- Read a string-literal remainder, with enough fuel for the input. -/
def readStr (l : List Char) : Option (List Char × List Char) := readStrF (l.length + 1) l

/-- Split off the longest leading run of decimal digits. -/
def takeDigits : List Char → List Char × List Char
  | [] => ([], [])
  | c :: r =>
    if isDigitC c then
      let p := takeDigits r
      (c :: p.1, p.2)
    else ([], c :: r)

/-- Numeric value of a digit run, accumulator style. -/
def digitsToNat : List Char → Nat → Nat
  | [], acc => acc
  | c :: r, acc => digitsToNat r (acc * 10 + (c.toNat - 48))

/-- Read the decimal digits of an integer token (sign already consumed). -/
def readNum (neg : Bool) (l : List Char) : Option (JVal × List Char) :=
  if (takeDigits l).1 = [] then none
  else some (JVal.num (if neg then -(digitsToNat (takeDigits l).1 0 : Int)
    else (digitsToNat (takeDigits l).1 0 : Int)), (takeDigits l).2)

/-- After one array element, expect `,` and further elements or the closing
`]`; `k` reads the remaining elements. -/
def itemsCont (k : List Char → Option (List JVal × List Char)) (v : JVal) :
    List Char → Option (List JVal × List Char)
  | [] => none
  | c :: r2 =>
    if c = ',' then (k (skipWs r2)).map fun p => (v :: p.1, p.2)
    else if c = ']' then some ([v], r2)
    else none

/-- After one object member, expect `,` and further members or the closing
brace; `k` reads the remaining members. -/
def membersCont (k : List Char → Option (List (String × JVal) × List Char))
    (kv : String × JVal) : List Char → Option (List (String × JVal) × List Char)
  | [] => none
  | c :: r2 =>
    if c = ',' then (k (skipWs r2)).map fun p => (kv :: p.1, p.2)
    else if c = rbrace then some ([kv], r2)
    else none

mutual
/-- Read one JSON value (integers only among numbers, as the handler emits
no floats), returning it and the unread input.  The fuel argument bounds
the nesting the reader will enter. -/
def readVal : Nat → List Char → Option (JVal × List Char)
  | 0, _ => none
  | _ + 1, [] => none
  | fuel + 1, c :: r =>
    if c = '"' then (readStr r).map fun p => (JVal.str (String.mk p.1), p.2)
    else if c = '[' then
      match skipWs r with
      | [] => none
      | c2 :: r2 =>
        if c2 = ']' then some (JVal.arr [], r2)
        else (readItems fuel (c2 :: r2)).map fun p => (JVal.arr p.1, p.2)
    else if c = lbrace then
      match skipWs r with
      | [] => none
      | c2 :: r2 =>
        if c2 = rbrace then some (JVal.obj [], r2)
        else (readMembers fuel (c2 :: r2)).map fun p => (JVal.obj p.1, p.2)
    else if c = 't' then
      match r with
      | 'r' :: 'u' :: 'e' :: rest => some (JVal.bool true, rest)
      | _ => none
    else if c = 'f' then
      match r with
      | 'a' :: 'l' :: 's' :: 'e' :: rest => some (JVal.bool false, rest)
      | _ => none
    else if c = 'n' then
      match r with
      | 'u' :: 'l' :: 'l' :: rest => some (JVal.null, rest)
      | _ => none
    else if c = '-' then readNum true r
    else readNum false (c :: r)

/-- Read a comma-separated, `]`-terminated sequence of array elements. -/
def readItems : Nat → List Char → Option (List JVal × List Char)
  | 0, _ => none
  | fuel + 1, l =>
    (readVal fuel l).bind fun p => itemsCont (readItems fuel) p.1 (skipWs p.2)

/-- Read a comma-separated, closing-brace-terminated sequence of
`"key": value` object members. -/
def readMembers : Nat → List Char → Option (List (String × JVal) × List Char)
  | 0, _ => none
  | fuel + 1, l =>
    match l with
    | [] => none
    | c0 :: r0 =>
      if c0 = '"' then
        (readStr r0).bind fun pk =>
          match skipWs pk.2 with
          | [] => none
          | c :: r2 =>
            if c = ':' then
              (readVal fuel (skipWs r2)).bind fun pv =>
                membersCont (readMembers fuel) (String.mk pk.1, pv.1) (skipWs pv.2)
            else none
      else none
end

/-- The reader standing in for `json.loads`: reads one value with enough
fuel for any input of this length, requiring only whitespace to remain. -/
def parse (s : String) : Option JVal :=
  (readVal (s.data.length + 1) (skipWs s.data)).bind fun p =>
    if skipWs p.2 = [] then some p.1 else none

/-- Tails that cannot extend a decimal digit run: empty, or starting with a
non-digit.  Every separator the dumper emits after a number satisfies this. -/
def GoodTail (rest : List Char) : Prop := ∀ c t, rest = c :: t → isDigitC c = false

mutual
/-- Reader fuel sufficient for a value (one unit per level of the reader's
mutual recursion, maxima over siblings). -/
def jsize : JVal → Nat
  | .arr items => 1 + lsizeJ items
  | .obj members => 1 + msizeJ members
  | _ => 1

/-- Reader fuel sufficient for an array-element list. -/
def lsizeJ : List JVal → Nat
  | [] => 1
  | v :: rest => 1 + Nat.max (jsize v) (lsizeJ rest)

/-- Reader fuel sufficient for an object-member list. -/
def msizeJ : List (String × JVal) → Nat
  | [] => 1
  | (_, v) :: rest => 1 + Nat.max (jsize v) (msizeJ rest)
end

/-- A service response of the shape the capability's contract promises
(`{Buckets: [{Name: string, ...}, ...]}`): a `Buckets` key holding a list of
records, each with a string under its `Name` key. -/
def WellFormedResp (resp : JVal) : Prop :=
  ∃ recs : List JVal, getItem resp "Buckets" = Except.ok (JVal.arr recs) ∧
    ∀ r ∈ recs, ∃ s : String, getItem r "Name" = Except.ok (JVal.str s)

/-- The sample response holding exactly the bucket records
`[{Name: "a"}, {Name: "b"}]`. -/
def respAB : JVal :=
  .obj [("Buckets", .arr [.obj [("Name", .str "a")], .obj [("Name", .str "b")]])]

/-- A sample response holding no bucket records. -/
def respEmpty : JVal := .obj [("Buckets", .arr [])]

/-- A sample malformed response lacking the `Buckets` key. -/
def respNoBuckets : JVal := .obj [("Owner", .str "me")]

/-- A sample malformed response whose record lacks the `Name` key. -/
def respNoName : JVal := .obj [("Buckets", .arr [.obj [("CreationDate", .str "2026")]])]

/-- A sample environment whose client construction succeeds and whose
listing call fails with an access-denied service error. -/
def worldDenied : S3World := ⟨.ok (), .error (.clientError "AccessDenied")⟩

/-- A sample environment where everything succeeds. -/
def worldAB : S3World := ⟨.ok (), .ok respAB⟩

/-- A sample environment whose client construction itself fails. -/
def worldNoClient : S3World :=
  ⟨.error (.clientError "Could not connect to the endpoint URL"), .ok respAB⟩

/-- The concrete successful capability outcome returning `respAB`. -/
def callAB : Except PyErr JVal := Except.ok respAB

/-! ### Basic facts about characters, hex digits, and decimal digits -/

/-- `String.mk` is inverse to `String.data`. -/
theorem stringMk_data (s : String) : String.mk s.data = s := by cases s; rfl

/-- Characters with different code points differ. -/
theorem charNe_of_toNat {c d : Char} (h : c.toNat ≠ d.toNat) : c ≠ d := fun he => h (he ▸ rfl)

/-- `Char.ofNat` then `Char.toNat` is the identity on valid code points. -/
theorem toNat_ofNat_valid (n : Nat) (h : n.isValidChar) : (Char.ofNat n).toNat = n := by
  simp only [Char.ofNat, h, dif_pos]
  rfl

/-- The code point of a character is a valid code point. -/
theorem toNat_valid (c : Char) : c.toNat.isValidChar := by
  rcases c.valid with h | h
  · exact Or.inl h
  · exact Or.inr ⟨h.1, h.2⟩

/-- A character never has a surrogate code point. -/
theorem toNat_not_surrogate (c : Char) : c.toNat < 0xD800 ∨ 0xE000 ≤ c.toNat := by
  rcases toNat_valid c with h | h
  · exact Or.inl h
  · exact Or.inr h.1

/-- The code point of a character is below `0x110000`. -/
theorem toNat_lt (c : Char) : c.toNat < 0x110000 := by
  rcases toNat_valid c with h | h
  · omega
  · exact h.2

/-- `hexVal` decodes the digit characters `hexDigit` emits. -/
theorem hexVal_hexDigit : ∀ d < 16, hexVal (hexDigit d) = some d := by decide

/-- `hex4` decodes the four digits `toHex4` produces. -/
theorem hex4_toHex4 (n : Nat) (h : n < 0x10000) :
    hex4 (hexDigit (n / 4096 % 16)) (hexDigit (n / 256 % 16))
      (hexDigit (n / 16 % 16)) (hexDigit (n % 16)) = some n := by
  rw [hex4]
  rw [hexVal_hexDigit _ (by omega), hexVal_hexDigit _ (by omega),
    hexVal_hexDigit _ (by omega), hexVal_hexDigit _ (by omega)]
  show some _ = some n
  congr 1
  omega

/-! ### The string-literal reader inverts the `json.dumps` escaping -/

/-- A character equals `Char.ofNat` of its code point. -/
theorem eq_ofNat_of_toNat {c : Char} {n : Nat} (h : c.toNat = n) : c = Char.ofNat n := by
  subst h
  exact (Char.ofNat_toNat c).symm

/-- One step of `readStrF` on a `\u` escape defers to `readU`. -/
theorem readStrF_u (fuel : Nat) (r2 : List Char) :
    readStrF (fuel + 1) ('\\' :: 'u' :: r2) = readU (readStrF fuel) r2 := rfl

/-- One step of `readStrF` on an unescaped plain character. -/
theorem readStrF_plain (fuel : Nat) (c : Char) (l : List Char)
    (h1 : ¬c = '"') (h2 : ¬c = '\\') (h3 : ¬c.toNat < 0x20) :
    readStrF (fuel + 1) (c :: l) = consC c (readStrF fuel l) := by
  rw [readStrF.eq_def]
  simp only [h1, h2, h3, if_false, ite_false]

/-- `readU` on four hex digits denoting a non-surrogate code point. -/
theorem readU_single (k : List Char → Option (List Char × List Char))
    (q1 q2 q3 q4 : Char) (l : List Char) (n : Nat) (h : hex4 q1 q2 q3 q4 = some n)
    (hhi : ¬(0xD800 ≤ n ∧ n ≤ 0xDBFF)) (hlo : ¬(0xDC00 ≤ n ∧ n ≤ 0xDFFF)) :
    readU k (q1 :: q2 :: q3 :: q4 :: l) = consC (Char.ofNat n) (k l) := by
  simp only [readU, h, if_neg hhi, if_neg hlo]

/-- `readU` on a surrogate pair of `\u` escapes. -/
theorem readU_pair (k : List Char → Option (List Char × List Char))
    (q1 q2 q3 q4 g1 g2 g3 g4 : Char) (l : List Char) (n m : Nat)
    (hn : hex4 q1 q2 q3 q4 = some n) (hm : hex4 g1 g2 g3 g4 = some m)
    (hhi : 0xD800 ≤ n ∧ n ≤ 0xDBFF) (hlo : 0xDC00 ≤ m ∧ m ≤ 0xDFFF) :
    readU k (q1 :: q2 :: q3 :: q4 :: '\\' :: 'u' :: g1 :: g2 :: g3 :: g4 :: l)
      = consC (Char.ofNat (0x10000 + (n - 0xD800) * 0x400 + (m - 0xDC00))) (k l) := by
  simp only [readU, hn, hm, if_pos hhi, if_pos hlo]

/-- Reading one escaped character: `readStrF` undoes `escapeChar`, spending
one unit of fuel. -/
theorem readStrF_escape (c : Char) (fuel : Nat) (l : List Char) :
    readStrF (fuel + 1) (escapeChar c ++ l) = consC c (readStrF fuel l) := by
  by_cases h1 : c = '"'
  · subst h1; rfl
  by_cases h2 : c = '\\'
  · subst h2; rfl
  by_cases h3 : c = '\n'
  · subst h3; rfl
  by_cases h4 : c = '\t'
  · subst h4; rfl
  by_cases h5 : c = '\r'
  · subst h5; rfl
  by_cases h6 : c.toNat = 8
  · rw [eq_ofNat_of_toNat h6]; rfl
  by_cases h7 : c.toNat = 12
  · rw [eq_ofNat_of_toNat h7]; rfl
  by_cases h8 : 0x20 ≤ c.toNat ∧ c.toNat ≤ 0x7e
  · rw [escapeChar, if_neg h1, if_neg h2, if_neg h3, if_neg h4, if_neg h5,
      if_neg h6, if_neg h7, if_pos h8]
    show readStrF (fuel + 1) (c :: l) = consC c (readStrF fuel l)
    exact readStrF_plain fuel c l h1 h2 (by omega)
  by_cases h9 : c.toNat < 0x10000
  · rw [escapeChar, if_neg h1, if_neg h2, if_neg h3, if_neg h4, if_neg h5,
      if_neg h6, if_neg h7, if_neg h8, if_pos h9, toHex4]
    show readStrF (fuel + 1) ('\\' :: 'u' :: hexDigit (c.toNat / 4096 % 16)
      :: hexDigit (c.toNat / 256 % 16) :: hexDigit (c.toNat / 16 % 16)
      :: hexDigit (c.toNat % 16) :: l) = consC c (readStrF fuel l)
    rw [readStrF_u]
    have hs := toNat_not_surrogate c
    rw [readU_single _ _ _ _ _ _ _ (hex4_toHex4 c.toNat h9) (by omega) (by omega),
      Char.ofNat_toNat]
  · rw [escapeChar, if_neg h1, if_neg h2, if_neg h3, if_neg h4, if_neg h5,
      if_neg h6, if_neg h7, if_neg h8, if_neg h9, toHex4, toHex4]
    have hlt := toNat_lt c
    show readStrF (fuel + 1) ('\\' :: 'u' :: hexDigit _ :: hexDigit _ :: hexDigit _ :: hexDigit _ ::
      ('\\' :: 'u' :: hexDigit _ :: hexDigit _ :: hexDigit _ :: hexDigit _ :: l))
      = consC c (readStrF fuel l)
    rw [readStrF_u]
    rw [readU_pair _ _ _ _ _ _ _ _ _ _ _ _ (hex4_toHex4 _ (by omega)) (hex4_toHex4 _ (by omega))
      (by omega) (by omega)]
    rw [show 0x10000 + (0xD800 + (c.toNat - 0x10000) / 0x400 - 0xD800) * 0x400
      + (0xDC00 + (c.toNat - 0x10000) % 0x400 - 0xDC00) = c.toNat by omega, Char.ofNat_toNat]

/-- Every branch of `escapeChar` emits at least one character. -/
theorem escapeChar_length_pos (c : Char) : 1 ≤ (escapeChar c).length := by
  rw [escapeChar]
  split_ifs <;> simp [toHex4]

/-- Escaping does not shorten a character sequence. -/
theorem escList_length (cs : List Char) : cs.length ≤ (escList cs).length := by
  induction cs with
  | nil => simp [escList]
  | cons c cs ih =>
    have := escapeChar_length_pos c
    simp only [escList, List.map_cons, List.flatten_cons, List.length_append, List.length_cons]
    simp only [escList] at ih
    omega

/-- With enough fuel, the string reader undoes the escaping of a whole
character sequence, stopping at the closing quote. -/
theorem readStrF_escList (cs : List Char) : ∀ fuel l, cs.length < fuel →
    readStrF fuel (escList cs ++ '"' :: l) = some (cs, l) := by
  induction cs with
  | nil =>
    intro fuel l h
    obtain ⟨f, rfl⟩ : ∃ f, fuel = f + 1 := ⟨fuel - 1, by omega⟩
    rfl
  | cons c cs ih =>
    intro fuel l h
    obtain ⟨f, rfl⟩ : ∃ f, fuel = f + 1 := ⟨fuel - 1, by omega⟩
    have hsplit : escList (c :: cs) = escapeChar c ++ escList cs := by
      simp [escList]
    rw [hsplit, List.append_assoc, readStrF_escape, ih f l (by simp at h; omega)]
    rfl

/-- The string reader undoes the escaping of a whole character sequence. -/
theorem readStr_escList (cs : List Char) (l : List Char) :
    readStr (escList cs ++ '"' :: l) = some (cs, l) := by
  have h := escList_length cs
  refine readStrF_escList cs _ l ?_
  simp only [List.length_append, List.length_cons]
  omega

/-! ### Decimal digits -/

/-- Every character `natDigits` emits is a decimal digit. -/
theorem natDigits_all_digits (n : Nat) : ∀ c ∈ natDigits n, isDigitC c = true := by
  induction n using Nat.strong_induction_on with
  | _ n ih =>
    rw [natDigits]
    split
    · intro c hc
      simp only [List.mem_singleton] at hc
      subst hc
      have hv : (48 + n).isValidChar := Or.inl (by omega)
      simp [isDigitC, toNat_ofNat_valid _ hv]
      omega
    · intro c hc
      rw [List.mem_append] at hc
      rcases hc with hc | hc
      · exact ih (n / 10) (by omega) c hc
      · simp only [List.mem_singleton] at hc
        subst hc
        have hv : (48 + n % 10).isValidChar := Or.inl (by omega)
        simp [isDigitC, toNat_ofNat_valid _ hv]
        omega

/-- `natDigits` always emits at least one character, the first a digit. -/
theorem natDigits_head (n : Nat) : ∃ c t, natDigits n = c :: t ∧ isDigitC c = true := by
  have hne : natDigits n ≠ [] := by
    rw [natDigits]
    split
    · simp
    · simp
  cases hd : natDigits n with
  | nil => exact absurd hd hne
  | cons c t =>
    refine ⟨c, t, rfl, ?_⟩
    have := natDigits_all_digits n c
    rw [hd] at this
    exact this (List.mem_cons_self c t)

/-- `takeDigits` splits a digit run off a non-digit tail. -/
theorem takeDigits_append (ds rest : List Char) (hds : ∀ c ∈ ds, isDigitC c = true)
    (hrest : GoodTail rest) : takeDigits (ds ++ rest) = (ds, rest) := by
  induction ds with
  | nil =>
    cases rest with
    | nil => rfl
    | cons c t =>
      simp only [List.nil_append, takeDigits, hrest c t rfl]
      simp
  | cons c ds ih =>
    have hih := ih (fun d hd => hds d (List.mem_cons_of_mem c hd))
    simp only [List.cons_append, takeDigits, hds c (List.mem_cons_self c ds), if_true,
      List.append_eq, hih]

/-- `digitsToNat` over an append runs the accumulator through the prefix. -/
theorem digitsToNat_append (l1 l2 : List Char) : ∀ acc,
    digitsToNat (l1 ++ l2) acc = digitsToNat l2 (digitsToNat l1 acc) := by
  induction l1 with
  | nil => intro acc; rfl
  | cons c l1 ih => intro acc; exact ih (acc * 10 + (c.toNat - 48))

/-- `digitsToNat` decodes `natDigits`, whatever the accumulator. -/
theorem digitsToNat_natDigits (n : Nat) : ∀ acc,
    digitsToNat (natDigits n) acc = acc * 10 ^ (natDigits n).length + n := by
  induction n using Nat.strong_induction_on with
  | _ n ih =>
    intro acc
    rw [natDigits]
    split
    · simp only [digitsToNat]
      have hv : (48 + n).isValidChar := Or.inl (by omega)
      rw [toNat_ofNat_valid _ hv]
      simp [pow_succ]
    · rw [digitsToNat_append]
      have hrec := ih (n / 10) (by omega)
      rw [hrec acc]
      simp only [digitsToNat]
      have hv : (48 + n % 10).isValidChar := Or.inl (by omega)
      rw [toNat_ofNat_valid _ hv]
      simp only [List.length_append, List.length_singleton, pow_succ, pow_zero]
      rw [Nat.mul_comm (10 ^ (natDigits (n / 10)).length) 10]
      set P := 10 ^ (natDigits (n / 10)).length with hP
      have hp : 0 < P := Nat.pos_pow_of_pos _ (by omega)
      have hmul : acc * (10 * P) = acc * P * 10 := by ring
      rw [hmul]
      omega

/-- `digitsToNat` from a zero accumulator inverts `natDigits`. -/
theorem digitsToNat_zero (n : Nat) : digitsToNat (natDigits n) 0 = n := by
  have := digitsToNat_natDigits n 0
  simpa using this

/-- A digit character differs from any character with a code point outside
the digit range. -/
theorem ne_char_of_digit {c : Char} (hlo : 48 ≤ c.toNat) (hhi : c.toNat ≤ 57)
    (d : Char) (hd : d.toNat < 48 ∨ 57 < d.toNat) : c ≠ d :=
  charNe_of_toNat (by omega)

/-- A digit character is none of the characters that start another kind of
JSON token, no whitespace, and no closing bracket or separator. -/
theorem digit_not_special (c : Char) (h : isDigitC c = true) :
    c ≠ '"' ∧ c ≠ '[' ∧ c ≠ lbrace ∧ c ≠ 't' ∧ c ≠ 'f' ∧ c ≠ 'n' ∧ c ≠ '-' ∧
      isWsC c = false ∧ c ≠ ']' ∧ c ≠ rbrace ∧ c ≠ ',' ∧ c ≠ ':' := by
  simp only [isDigitC, Bool.and_eq_true, decide_eq_true_eq] at h
  obtain ⟨hlo, hhi⟩ := h
  have hws : isWsC c = false := by
    have h1 : c ≠ ' ' := ne_char_of_digit hlo hhi _ (by decide)
    have h2 : c ≠ '\n' := ne_char_of_digit hlo hhi _ (by decide)
    have h3 : c ≠ '\t' := ne_char_of_digit hlo hhi _ (by decide)
    have h4 : c ≠ '\r' := ne_char_of_digit hlo hhi _ (by decide)
    simp [isWsC, h1, h2, h3, h4]
  exact ⟨ne_char_of_digit hlo hhi _ (by decide), ne_char_of_digit hlo hhi _ (by decide),
    ne_char_of_digit hlo hhi _ (by decide), ne_char_of_digit hlo hhi _ (by decide),
    ne_char_of_digit hlo hhi _ (by decide), ne_char_of_digit hlo hhi _ (by decide),
    ne_char_of_digit hlo hhi _ (by decide), hws, ne_char_of_digit hlo hhi _ (by decide),
    ne_char_of_digit hlo hhi _ (by decide), ne_char_of_digit hlo hhi _ (by decide),
    ne_char_of_digit hlo hhi _ (by decide)⟩

/-! ### Heads and lengths of dumped output -/

/-- `skipWs` is the identity on input starting with non-whitespace. -/
theorem skipWs_not_ws {c : Char} (l : List Char) (h : isWsC c = false) :
    skipWs (c :: l) = c :: l := by
  simp [skipWs, h]

/-- `skipWs` drops a leading blank. -/
theorem skipWs_blank (l : List Char) : skipWs (' ' :: l) = skipWs l := rfl

/-- `dumpsL` output is nonempty and starts with a character that is neither
whitespace nor a closing bracket. -/
theorem dumpsL_head (v : JVal) : ∃ c t, dumpsL v = c :: t ∧ isWsC c = false ∧ c ≠ ']' := by
  cases v with
  | null => exact ⟨'n', _, rfl, by decide, by decide⟩
  | bool b =>
    cases b with
    | true => exact ⟨'t', _, rfl, by decide, by decide⟩
    | false => exact ⟨'f', _, rfl, by decide, by decide⟩
  | num n =>
    show ∃ c t, intDigits n = c :: t ∧ isWsC c = false ∧ c ≠ ']'
    rw [intDigits]
    split
    · exact ⟨'-', _, rfl, by decide, by decide⟩
    · obtain ⟨c, t, heq, hdig⟩ := natDigits_head n.toNat
      obtain ⟨-, -, -, -, -, -, -, hws, hbr, -⟩ := digit_not_special c hdig
      exact ⟨c, t, heq, hws, hbr⟩
  | str s => exact ⟨'"', _, rfl, by decide, by decide⟩
  | arr items => exact ⟨'[', _, rfl, by decide, by decide⟩
  | obj members => exact ⟨lbrace, _, rfl, by decide, by decide⟩

/-- The rendering of a nonempty element list starts like the rendering of
its first element. -/
theorem dumpsList_head (v : JVal) (rest : List JVal) :
    ∃ c t, dumpsList (v :: rest) = c :: t ∧ isWsC c = false ∧ c ≠ ']' := by
  obtain ⟨c, t, heq, hws, hbr⟩ := dumpsL_head v
  cases rest with
  | nil => exact ⟨c, t, by simp [dumpsList, heq], hws, hbr⟩
  | cons w ws =>
    refine ⟨c, t ++ ',' :: ' ' :: dumpsList (w :: ws), ?_, hws, hbr⟩
    show dumpsL v ++ ',' :: ' ' :: dumpsList (w :: ws) = _
    rw [heq]
    rfl

/-- The rendering of a nonempty member list starts with a double quote. -/
theorem dumpsMembers_head (kv : String × JVal) (rest : List (String × JVal)) :
    ∃ t, dumpsMembers (kv :: rest) = '"' :: t := by
  obtain ⟨k, v⟩ := kv
  cases rest with
  | nil => exact ⟨_, rfl⟩
  | cons kv2 kvs => exact ⟨_, rfl⟩

/-- `dumpsL` output is nonempty. -/
theorem dumpsL_length_pos (v : JVal) : 1 ≤ (dumpsL v).length := by
  obtain ⟨c, t, heq, -, -⟩ := dumpsL_head v
  simp [heq]

mutual
/-- The reader fuel a value needs is bounded by its rendered length. -/
theorem jsize_le (v : JVal) : jsize v ≤ (dumpsL v).length := by
  cases v with
  | null => simp [jsize, dumpsL]
  | bool b => cases b <;> simp [jsize, dumpsL]
  | num n =>
    have := dumpsL_length_pos (JVal.num n)
    simp only [jsize]
    omega
  | str s => simp [jsize, dumpsL, encodeStr]
  | arr items =>
    have h := lsizeJ_le items
    simp only [jsize, dumpsL, List.length_append, List.length_cons]
    simp only [List.length_nil]
    omega
  | obj members =>
    have h := msizeJ_le members
    simp only [jsize, dumpsL, List.length_append, List.length_cons]
    simp only [List.length_nil]
    omega

/-- The reader fuel an element list needs is bounded by its rendered length. -/
theorem lsizeJ_le (vs : List JVal) : lsizeJ vs ≤ (dumpsList vs).length + 1 := by
  cases vs with
  | nil => simp [lsizeJ, dumpsList]
  | cons v rest =>
    have hv := jsize_le v
    have hpos := dumpsL_length_pos v
    cases rest with
    | nil =>
      simp only [lsizeJ, dumpsList, lsizeJ]
      have hm : Nat.max (jsize v) 1 ≤ (dumpsL v).length := Nat.max_le.mpr ⟨hv, hpos⟩
      omega
    | cons w ws =>
      have hrest := lsizeJ_le (w :: ws)
      show 1 + Nat.max (jsize v) (lsizeJ (w :: ws)) ≤
        (dumpsL v ++ ',' :: ' ' :: dumpsList (w :: ws)).length + 1
      simp only [List.length_append, List.length_cons]
      have hm : Nat.max (jsize v) (lsizeJ (w :: ws)) ≤
          (dumpsL v).length + (dumpsList (w :: ws)).length + 1 :=
        Nat.max_le.mpr ⟨by omega, by omega⟩
      omega

/-- The reader fuel a member list needs is bounded by its rendered length. -/
theorem msizeJ_le (kvs : List (String × JVal)) : msizeJ kvs ≤ (dumpsMembers kvs).length + 1 := by
  cases kvs with
  | nil => simp [msizeJ, dumpsMembers]
  | cons kv rest =>
    obtain ⟨k, v⟩ := kv
    have hv := jsize_le v
    cases rest with
    | nil =>
      show 1 + Nat.max (jsize v) (msizeJ []) ≤ (encodeStr k ++ ':' :: ' ' :: dumpsL v).length + 1
      simp only [msizeJ, List.length_append, List.length_cons]
      have hm : Nat.max (jsize v) 1 ≤ (dumpsL v).length + 1 :=
        Nat.max_le.mpr ⟨by omega, by omega⟩
      omega
    | cons kw kws =>
      have hrest := msizeJ_le (kw :: kws)
      show 1 + Nat.max (jsize v) (msizeJ (kw :: kws)) ≤
        (encodeStr k ++ ':' :: ' ' :: dumpsL v ++ ',' :: ' ' :: dumpsMembers (kw :: kws)).length + 1
      simp only [List.length_append, List.length_cons]
      have hm : Nat.max (jsize v) (msizeJ (kw :: kws)) ≤
          (dumpsL v).length + (dumpsMembers (kw :: kws)).length + 1 :=
        Nat.max_le.mpr ⟨by omega, by omega⟩
      omega
end

/-! ### One-step unfolding lemmas for the reader -/

/-- The empty tail cannot extend a digit run. -/
theorem goodTail_nil : GoodTail [] := by
  intro c t h
  simp at h

/-- A tail starting with a non-digit cannot extend a digit run. -/
theorem goodTail_cons (c : Char) (t : List Char) (h : isDigitC c = false) :
    GoodTail (c :: t) := by
  intro d s hds
  injection hds with h1 h2
  rw [← h1]
  exact h

/-- Reading a value at an opening quote reads a string literal. -/
theorem readVal_quote (fuel : Nat) (r : List Char) :
    readVal (fuel + 1) ('"' :: r)
      = (readStr r).map fun p => (JVal.str (String.mk p.1), p.2) := rfl

/-- Reading a value at `null`. -/
theorem readVal_null (fuel : Nat) (rest : List Char) :
    readVal (fuel + 1) ('n' :: 'u' :: 'l' :: 'l' :: rest) = some (JVal.null, rest) := rfl

/-- Reading a value at `true`. -/
theorem readVal_true (fuel : Nat) (rest : List Char) :
    readVal (fuel + 1) ('t' :: 'r' :: 'u' :: 'e' :: rest) = some (JVal.bool true, rest) := rfl

/-- Reading a value at `false`. -/
theorem readVal_false (fuel : Nat) (rest : List Char) :
    readVal (fuel + 1) ('f' :: 'a' :: 'l' :: 's' :: 'e' :: rest)
      = some (JVal.bool false, rest) := rfl

/-- Reading a value at a minus sign reads a negative integer. -/
theorem readVal_minus (fuel : Nat) (r : List Char) :
    readVal (fuel + 1) ('-' :: r) = readNum true r := rfl

/-- Reading a value at a digit reads a nonnegative integer. -/
theorem readVal_digit (fuel : Nat) (c : Char) (r : List Char) (hd : isDigitC c = true) :
    readVal (fuel + 1) (c :: r) = readNum false (c :: r) := by
  simp only [isDigitC, Bool.and_eq_true, decide_eq_true_eq] at hd
  obtain ⟨hlo, hhi⟩ := hd
  rw [show c = Char.ofNat c.toNat from (Char.ofNat_toNat c).symm]
  generalize c.toNat = n at hlo hhi
  interval_cases n <;> rfl

/-- Reading a value at `[` with an empty array. -/
theorem readVal_arr_nil (fuel : Nat) (r r2 : List Char) (h : skipWs r = ']' :: r2) :
    readVal (fuel + 1) ('[' :: r) = some (JVal.arr [], r2) := by
  have h0 : readVal (fuel + 1) ('[' :: r) = match skipWs r with
    | [] => none
    | c2 :: r2 =>
      if c2 = ']' then some (JVal.arr [], r2)
      else (readItems fuel (c2 :: r2)).map fun p => (JVal.arr p.1, p.2) := rfl
  rw [h0, h]
  rfl

/-- Reading a value at `[` with a nonempty array defers to `readItems`. -/
theorem readVal_arr_cons (fuel : Nat) (r r2 : List Char) (c2 : Char)
    (h : skipWs r = c2 :: r2) (hne : c2 ≠ ']') :
    readVal (fuel + 1) ('[' :: r)
      = (readItems fuel (c2 :: r2)).map fun p => (JVal.arr p.1, p.2) := by
  have h0 : readVal (fuel + 1) ('[' :: r) = match skipWs r with
    | [] => none
    | c2 :: r2 =>
      if c2 = ']' then some (JVal.arr [], r2)
      else (readItems fuel (c2 :: r2)).map fun p => (JVal.arr p.1, p.2) := rfl
  rw [h0, h]
  show (if c2 = ']' then some (JVal.arr [], r2)
    else (readItems fuel (c2 :: r2)).map fun p => (JVal.arr p.1, p.2)) = _
  rw [if_neg hne]

/-- Reading a value at an opening brace with an empty object. -/
theorem readVal_obj_nil (fuel : Nat) (r r2 : List Char) (h : skipWs r = rbrace :: r2) :
    readVal (fuel + 1) (lbrace :: r) = some (JVal.obj [], r2) := by
  have h0 : readVal (fuel + 1) (lbrace :: r) = match skipWs r with
    | [] => none
    | c2 :: r2 =>
      if c2 = rbrace then some (JVal.obj [], r2)
      else (readMembers fuel (c2 :: r2)).map fun p => (JVal.obj p.1, p.2) := rfl
  rw [h0, h]
  show (if rbrace = rbrace then some (JVal.obj [], r2)
    else (readMembers fuel (rbrace :: r2)).map fun p => (JVal.obj p.1, p.2)) = _
  rw [if_pos rfl]

/-- Reading a value at an opening brace with a nonempty object defers to
`readMembers`. -/
theorem readVal_obj_cons (fuel : Nat) (r r2 : List Char) (c2 : Char)
    (h : skipWs r = c2 :: r2) (hne : c2 ≠ rbrace) :
    readVal (fuel + 1) (lbrace :: r)
      = (readMembers fuel (c2 :: r2)).map fun p => (JVal.obj p.1, p.2) := by
  have h0 : readVal (fuel + 1) (lbrace :: r) = match skipWs r with
    | [] => none
    | c2 :: r2 =>
      if c2 = rbrace then some (JVal.obj [], r2)
      else (readMembers fuel (c2 :: r2)).map fun p => (JVal.obj p.1, p.2) := rfl
  rw [h0, h]
  show (if c2 = rbrace then some (JVal.obj [], r2)
    else (readMembers fuel (c2 :: r2)).map fun p => (JVal.obj p.1, p.2)) = _
  rw [if_neg hne]

/-- `readItems` after a successfully read element. -/
theorem readItems_step (fuel : Nat) (l : List Char) (v : JVal) (r : List Char)
    (h : readVal fuel l = some (v, r)) :
    readItems (fuel + 1) l = itemsCont (readItems fuel) v (skipWs r) := by
  have h0 : readItems (fuel + 1) l
      = (readVal fuel l).bind fun p => itemsCont (readItems fuel) p.1 (skipWs p.2) := rfl
  rw [h0, h]
  rfl

/-- `itemsCont` at a comma continues with further elements. -/
theorem itemsCont_comma (k : List Char → Option (List JVal × List Char)) (v : JVal)
    (r2 : List Char) :
    itemsCont k v (',' :: r2) = (k (skipWs r2)).map fun p => (v :: p.1, p.2) := rfl

/-- `itemsCont` at `]` closes the array. -/
theorem itemsCont_rbracket (k : List Char → Option (List JVal × List Char)) (v : JVal)
    (r2 : List Char) : itemsCont k v (']' :: r2) = some ([v], r2) := rfl

/-- `readMembers` after the key string and its colon have been read. -/
theorem readMembers_step (fuel : Nat) (r0 kcs r1 r2 : List Char)
    (h : readStr r0 = some (kcs, r1)) (hc : skipWs r1 = ':' :: r2) :
    readMembers (fuel + 1) ('"' :: r0) = (readVal fuel (skipWs r2)).bind fun pv =>
      membersCont (readMembers fuel) (String.mk kcs, pv.1) (skipWs pv.2) := by
  have h0 : readMembers (fuel + 1) ('"' :: r0) = (readStr r0).bind fun pk =>
      match skipWs pk.2 with
      | [] => none
      | c :: r2 =>
        if c = ':' then
          (readVal fuel (skipWs r2)).bind fun pv =>
            membersCont (readMembers fuel) (String.mk pk.1, pv.1) (skipWs pv.2)
        else none := rfl
  rw [h0, h]
  show (match skipWs r1 with
    | [] => none
    | c :: r2 =>
      if c = ':' then
        (readVal fuel (skipWs r2)).bind fun pv =>
          membersCont (readMembers fuel) (String.mk kcs, pv.1) (skipWs pv.2)
      else none) = _
  rw [hc]
  rfl

/-- `membersCont` at a comma continues with further members. -/
theorem membersCont_comma (k : List Char → Option (List (String × JVal) × List Char))
    (kv : String × JVal) (r2 : List Char) :
    membersCont k kv (',' :: r2) = (k (skipWs r2)).map fun p => (kv :: p.1, p.2) := rfl

/-- `membersCont` at a closing brace closes the object. -/
theorem membersCont_rbrace (k : List Char → Option (List (String × JVal) × List Char))
    (kv : String × JVal) (r2 : List Char) :
    membersCont k kv (rbrace :: r2) = some ([kv], r2) := by
  have h0 : membersCont k kv (rbrace :: r2)
      = if rbrace = ',' then (k (skipWs r2)).map fun p => (kv :: p.1, p.2)
        else if rbrace = rbrace then some ([kv], r2) else none := rfl
  rw [h0, if_neg (by decide), if_pos rfl]

/-- `readNum` decodes a negative decimal literal. -/
theorem readNum_natDigits_true (m : Nat) (rest : List Char) (hrest : GoodTail rest) :
    readNum true (natDigits m ++ rest) = some (JVal.num (-(m : Int)), rest) := by
  rw [readNum, takeDigits_append _ _ (natDigits_all_digits m) hrest]
  obtain ⟨c0, t0, heq0, -⟩ := natDigits_head m
  show (if natDigits m = ([] : List Char) then none
    else some (JVal.num (-(digitsToNat (natDigits m) 0 : Int)), rest)) = _
  rw [if_neg (by rw [heq0]; simp), digitsToNat_zero]

/-- `readNum` decodes a nonnegative decimal literal. -/
theorem readNum_natDigits_false (m : Nat) (rest : List Char) (hrest : GoodTail rest) :
    readNum false (natDigits m ++ rest) = some (JVal.num ((m : Int)), rest) := by
  rw [readNum, takeDigits_append _ _ (natDigits_all_digits m) hrest]
  obtain ⟨c0, t0, heq0, -⟩ := natDigits_head m
  show (if natDigits m = ([] : List Char) then none
    else some (JVal.num ((digitsToNat (natDigits m) 0 : Int)), rest)) = _
  rw [if_neg (by rw [heq0]; simp), digitsToNat_zero]

/-! ### The reader inverts the dumper -/

mutual
/-- With enough fuel, reading the dumped rendering of a value followed by a
tail that cannot extend a digit run yields the value and the tail. -/
theorem readVal_dumps (v : JVal) : ∀ fuel rest, jsize v ≤ fuel → GoodTail rest →
    readVal fuel (dumpsL v ++ rest) = some (v, rest) := by
  cases v with
  | null =>
    intro fuel rest hfuel hrest
    obtain ⟨f, rfl⟩ : ∃ f, fuel = f + 1 := ⟨fuel - 1, by simp [jsize] at hfuel; omega⟩
    exact readVal_null f rest
  | bool b =>
    intro fuel rest hfuel hrest
    obtain ⟨f, rfl⟩ : ∃ f, fuel = f + 1 := ⟨fuel - 1, by simp [jsize] at hfuel; omega⟩
    cases b with
    | true => exact readVal_true f rest
    | false => exact readVal_false f rest
  | num n =>
    intro fuel rest hfuel hrest
    obtain ⟨f, rfl⟩ : ∃ f, fuel = f + 1 := ⟨fuel - 1, by simp [jsize] at hfuel; omega⟩
    show readVal (f + 1) (intDigits n ++ rest) = some (JVal.num n, rest)
    rw [intDigits]
    split
    · rename_i hneg
      rw [List.cons_append, readVal_minus, readNum_natDigits_true _ rest hrest,
        show -((n.natAbs : Nat) : Int) = n by omega]
    · rename_i hpos
      obtain ⟨c0, t0, heq0, hd0⟩ := natDigits_head n.toNat
      rw [heq0, List.cons_append, readVal_digit f c0 _ hd0, ← List.cons_append, ← heq0,
        readNum_natDigits_false _ rest hrest, show ((n.toNat : Nat) : Int) = n by omega]
  | str s =>
    intro fuel rest hfuel hrest
    obtain ⟨f, rfl⟩ : ∃ f, fuel = f + 1 := ⟨fuel - 1, by simp [jsize] at hfuel; omega⟩
    have hnorm : dumpsL (JVal.str s) ++ rest = '"' :: (escList s.data ++ ('"' :: rest)) := by
      show ('"' :: escList s.data ++ ['"']) ++ rest = _
      simp
    rw [hnorm, readVal_quote, readStr_escList]
    simp [stringMk_data]
  | arr items =>
    intro fuel rest hfuel hrest
    obtain ⟨f, rfl⟩ : ∃ f, fuel = f + 1 := ⟨fuel - 1, by
      have : jsize (JVal.arr items) = 1 + lsizeJ items := rfl
      omega⟩
    cases items with
    | nil => exact readVal_arr_nil f _ rest (skipWs_not_ws _ (by decide))
    | cons v t =>
      have hsz : lsizeJ (v :: t) ≤ f := by
        have h1 : jsize (JVal.arr (v :: t)) = 1 + lsizeJ (v :: t) := rfl
        omega
      obtain ⟨c0, t0, heq0, hws0, hbr0⟩ := dumpsList_head v t
      have hnorm : dumpsL (JVal.arr (v :: t)) ++ rest
          = '[' :: (dumpsList (v :: t) ++ (']' :: rest)) := by
        show ('[' :: dumpsList (v :: t) ++ [']']) ++ rest = _
        simp
      rw [hnorm]
      have hskip : skipWs (dumpsList (v :: t) ++ (']' :: rest))
          = c0 :: (t0 ++ (']' :: rest)) := by
        rw [heq0, List.cons_append]
        exact skipWs_not_ws _ hws0
      rw [readVal_arr_cons f _ _ c0 hskip hbr0,
        show c0 :: (t0 ++ (']' :: rest)) = dumpsList (v :: t) ++ (']' :: rest) from by
          rw [heq0, List.cons_append],
        readItems_dumps (v :: t) (by simp) f rest hsz]
      rfl
  | obj members =>
    intro fuel rest hfuel hrest
    obtain ⟨f, rfl⟩ : ∃ f, fuel = f + 1 := ⟨fuel - 1, by
      have : jsize (JVal.obj members) = 1 + msizeJ members := rfl
      omega⟩
    cases members with
    | nil => exact readVal_obj_nil f _ rest (skipWs_not_ws _ (by decide))
    | cons kv t =>
      have hsz : msizeJ (kv :: t) ≤ f := by
        have h1 : jsize (JVal.obj (kv :: t)) = 1 + msizeJ (kv :: t) := rfl
        omega
      obtain ⟨t1, heq1⟩ := dumpsMembers_head kv t
      have hnorm : dumpsL (JVal.obj (kv :: t)) ++ rest
          = lbrace :: (dumpsMembers (kv :: t) ++ (rbrace :: rest)) := by
        show (lbrace :: dumpsMembers (kv :: t) ++ [rbrace]) ++ rest = _
        simp
      rw [hnorm]
      have hskip : skipWs (dumpsMembers (kv :: t) ++ (rbrace :: rest))
          = '"' :: (t1 ++ (rbrace :: rest)) := by
        rw [heq1, List.cons_append]
        exact skipWs_not_ws _ (by decide)
      rw [readVal_obj_cons f _ _ '"' hskip (by decide),
        show '"' :: (t1 ++ (rbrace :: rest)) = dumpsMembers (kv :: t) ++ (rbrace :: rest) from by
          rw [heq1, List.cons_append],
        readMembers_dumps (kv :: t) (by simp) f rest hsz]
      rfl
termination_by sizeOf v
decreasing_by all_goals (subst_vars; try simp; try omega)

/-- With enough fuel, reading the dumped renderings of a nonempty element
list, terminated by `]`, yields the elements and the tail. -/
theorem readItems_dumps (vs : List JVal) (hne : vs ≠ []) :
    ∀ fuel rest, lsizeJ vs ≤ fuel →
    readItems fuel (dumpsList vs ++ (']' :: rest)) = some (vs, rest) := by
  cases vs with
  | nil => exact absurd rfl hne
  | cons v t =>
    intro fuel rest hfuel
    have hx : lsizeJ (v :: t) = 1 + Nat.max (jsize v) (lsizeJ t) := rfl
    have hmaxl : jsize v ≤ Nat.max (jsize v) (lsizeJ t) := Nat.le_max_left _ _
    obtain ⟨f, rfl⟩ : ∃ f, fuel = f + 1 := ⟨fuel - 1, by omega⟩
    have hv : jsize v ≤ f := by omega
    cases t with
    | nil =>
      rw [show dumpsList [v] ++ (']' :: rest) = dumpsL v ++ (']' :: rest) from rfl,
        readItems_step f _ v (']' :: rest)
          (readVal_dumps v f (']' :: rest) hv (goodTail_cons _ _ (by decide))),
        skipWs_not_ws _ (by decide), itemsCont_rbracket]
    | cons w ws =>
      have hmaxr : lsizeJ (w :: ws) ≤ Nat.max (jsize v) (lsizeJ (w :: ws)) := Nat.le_max_right _ _
      have hws2 : lsizeJ (w :: ws) ≤ f := by
        have hy : lsizeJ (v :: w :: ws) = 1 + Nat.max (jsize v) (lsizeJ (w :: ws)) := rfl
        omega
      have hnorm : dumpsList (v :: w :: ws) ++ (']' :: rest)
          = dumpsL v ++ (',' :: ' ' :: (dumpsList (w :: ws) ++ (']' :: rest))) := by
        show (dumpsL v ++ ',' :: ' ' :: dumpsList (w :: ws)) ++ (']' :: rest) = _
        simp
      rw [hnorm,
        readItems_step f _ v _ (readVal_dumps v f _ hv (goodTail_cons _ _ (by decide))),
        skipWs_not_ws _ (by decide), itemsCont_comma, skipWs_blank]
      obtain ⟨c0, t0, heq0, hws0, -⟩ := dumpsList_head w ws
      rw [show skipWs (dumpsList (w :: ws) ++ (']' :: rest)) = dumpsList (w :: ws) ++ (']' :: rest)
          from by rw [heq0, List.cons_append]; exact skipWs_not_ws _ hws0,
        readItems_dumps (w :: ws) (by simp) f rest hws2]
      rfl
termination_by sizeOf vs
decreasing_by all_goals (subst_vars; try simp; try omega)

/-- With enough fuel, reading the dumped renderings of a nonempty member
list, terminated by a closing brace, yields the members and the tail. -/
theorem readMembers_dumps (kvs : List (String × JVal)) (hne : kvs ≠ []) :
    ∀ fuel rest, msizeJ kvs ≤ fuel →
    readMembers fuel (dumpsMembers kvs ++ (rbrace :: rest)) = some (kvs, rest) := by
  cases kvs with
  | nil => exact absurd rfl hne
  | cons kv t =>
    intro fuel rest hfuel
    have hx : msizeJ (kv :: t) = 1 + Nat.max (jsize kv.2) (msizeJ t) := rfl
    have hmaxl : jsize kv.2 ≤ Nat.max (jsize kv.2) (msizeJ t) := Nat.le_max_left _ _
    obtain ⟨f, rfl⟩ : ∃ f, fuel = f + 1 := ⟨fuel - 1, by omega⟩
    have hw : jsize kv.2 ≤ f := by omega
    cases t with
    | nil =>
      have hnorm : dumpsMembers [kv] ++ (rbrace :: rest)
          = '"' :: (escList kv.1.data
              ++ ('"' :: (':' :: ' ' :: (dumpsL kv.2 ++ (rbrace :: rest))))) := by
        show ('"' :: escList kv.1.data ++ ['"'] ++ (':' :: ' ' :: dumpsL kv.2))
            ++ (rbrace :: rest) = _
        simp
      rw [hnorm, readMembers_step f _ kv.1.data _ _ (readStr_escList kv.1.data _)
        (skipWs_not_ws _ (by decide)), skipWs_blank]
      obtain ⟨c0, t0, heq0, hws0, -⟩ := dumpsL_head kv.2
      rw [show skipWs (dumpsL kv.2 ++ (rbrace :: rest)) = dumpsL kv.2 ++ (rbrace :: rest)
          from by rw [heq0, List.cons_append]; exact skipWs_not_ws _ hws0,
        readVal_dumps kv.2 f _ hw (goodTail_cons _ _ (by decide)), Option.some_bind]
      show membersCont (readMembers f) (String.mk kv.1.data, kv.2) (skipWs (rbrace :: rest))
        = some ([kv], rest)
      rw [skipWs_not_ws _ (by decide), membersCont_rbrace, stringMk_data]
    | cons kv2 t2 =>
      have hmaxr : msizeJ (kv2 :: t2) ≤ Nat.max (jsize kv.2) (msizeJ (kv2 :: t2)) :=
        Nat.le_max_right _ _
      have ht2 : msizeJ (kv2 :: t2) ≤ f := by
        have hy : msizeJ (kv :: kv2 :: t2) = 1 + Nat.max (jsize kv.2) (msizeJ (kv2 :: t2)) := rfl
        omega
      have hnorm : dumpsMembers (kv :: kv2 :: t2) ++ (rbrace :: rest)
          = '"' :: (escList kv.1.data ++ ('"' :: (':' :: ' ' :: (dumpsL kv.2 ++
              (',' :: ' ' :: (dumpsMembers (kv2 :: t2) ++ (rbrace :: rest))))))) := by
        show ('"' :: escList kv.1.data ++ ['"'] ++ (':' :: ' ' :: dumpsL kv.2)
            ++ (',' :: ' ' :: dumpsMembers (kv2 :: t2))) ++ (rbrace :: rest) = _
        simp
      rw [hnorm, readMembers_step f _ kv.1.data _ _ (readStr_escList kv.1.data _)
        (skipWs_not_ws _ (by decide)), skipWs_blank]
      obtain ⟨c0, t0, heq0, hws0, -⟩ := dumpsL_head kv.2
      rw [show skipWs (dumpsL kv.2 ++ (',' :: ' ' :: (dumpsMembers (kv2 :: t2) ++ (rbrace :: rest))))
          = dumpsL kv.2 ++ (',' :: ' ' :: (dumpsMembers (kv2 :: t2) ++ (rbrace :: rest)))
          from by rw [heq0, List.cons_append]; exact skipWs_not_ws _ hws0,
        readVal_dumps kv.2 f _ hw (goodTail_cons _ _ (by decide)), Option.some_bind]
      show membersCont (readMembers f) (String.mk kv.1.data, kv.2)
        (skipWs (',' :: ' ' :: (dumpsMembers (kv2 :: t2) ++ (rbrace :: rest))))
        = some (kv :: kv2 :: t2, rest)
      rw [skipWs_not_ws _ (by decide), membersCont_comma, skipWs_blank]
      obtain ⟨t3, heq3⟩ := dumpsMembers_head kv2 t2
      rw [show skipWs (dumpsMembers (kv2 :: t2) ++ (rbrace :: rest))
          = dumpsMembers (kv2 :: t2) ++ (rbrace :: rest)
          from by rw [heq3, List.cons_append]; exact skipWs_not_ws _ (by decide),
        readMembers_dumps (kv2 :: t2) (by simp) f rest ht2]
      simp [stringMk_data]
termination_by sizeOf kvs
decreasing_by all_goals (subst_vars; try (obtain ⟨k9, w9⟩ := kv); try simp; try omega)
end

/-- The reader standing in for `json.loads` inverts `json.dumps`: the
serialized body of any value parses back to exactly that value. -/
theorem parse_dumps (v : JVal) : parse (dumps v) = some v := by
  obtain ⟨c0, t0, heq0, hws0, -⟩ := dumpsL_head v
  have hskip : skipWs (dumps v).data = dumpsL v := by
    show skipWs (dumpsL v) = dumpsL v
    rw [heq0]
    exact skipWs_not_ws _ hws0
  have hbound : jsize v ≤ (dumps v).data.length + 1 := by
    have h := jsize_le v
    show jsize v ≤ (dumpsL v).length + 1
    omega
  have hval : readVal ((dumps v).data.length + 1) (dumpsL v) = some (v, []) := by
    rw [← List.append_nil (dumpsL v)]
    exact readVal_dumps v _ [] hbound goodTail_nil
  rw [parse, hskip, hval]
  rfl

/-! ### Behaviour of the handler -/

/-- A failing capability call is caught and answered with the 500 envelope
built from the error's text. -/
theorem handleListBuckets_error (e : PyErr) :
    handleListBuckets (Except.error e) = ⟨500, errorBody e⟩ := rfl

/-- When the comprehension over the response succeeds, the handler answers
200 with the success body. -/
theorem handleListBuckets_ok (resp : JVal) (buckets : List JVal)
    (h : listComp resp = Except.ok buckets) :
    handleListBuckets (Except.ok resp) = ⟨200, successBody buckets⟩ := by
  have h0 : handleListBuckets (Except.ok resp) = match tryBody (Except.ok resp) with
    | Except.ok env => env
    | Except.error e => ⟨500, errorBody e⟩ := rfl
  have h1 : tryBody (Except.ok resp) = (listComp resp).map fun buckets =>
      (⟨200, successBody buckets⟩ : ResponseEnvelope) := by
    show (listComp resp).bind
      (fun buckets => Except.ok (⟨200, successBody buckets⟩ : ResponseEnvelope)) = _
    cases listComp resp <;> rfl
  rw [h0, h1, h]
  rfl

/-- When the comprehension over the response raises, the handler catches and
answers 500 with the error body. -/
theorem handleListBuckets_comp_error (resp : JVal) (e : PyErr)
    (h : listComp resp = Except.error e) :
    handleListBuckets (Except.ok resp) = ⟨500, errorBody e⟩ := by
  have h0 : handleListBuckets (Except.ok resp) = match tryBody (Except.ok resp) with
    | Except.ok env => env
    | Except.error e => ⟨500, errorBody e⟩ := rfl
  have h1 : tryBody (Except.ok resp) = (listComp resp).map fun buckets =>
      (⟨200, successBody buckets⟩ : ResponseEnvelope) := by
    show (listComp resp).bind
      (fun buckets => Except.ok (⟨200, successBody buckets⟩ : ResponseEnvelope)) = _
    cases listComp resp <;> rfl
  rw [h0, h1, h]
  rfl

/-- The comprehension on a well-formed response yields exactly the `Name`
strings of the records, in order. -/
theorem extractNames_forall2 (recs : List JVal) (names : List String)
    (h : List.Forall₂ (fun r n => getItem r "Name" = Except.ok (JVal.str n)) recs names) :
    extractNames recs = Except.ok (names.map JVal.str) := by
  induction h with
  | nil => rfl
  | cons hrn _ ih =>
    rename_i r n rs ns _
    show (getItem r "Name").bind (fun x => (extractNames rs).bind fun others =>
      Except.ok (x :: others)) = _
    rw [hrn, ih]
    rfl

/-- `listComp` on a response with a `Buckets` list whose records are related
pointwise to a name list yields those names as strings, in order. -/
theorem listComp_forall2 (resp : JVal) (recs : List JVal) (names : List String)
    (hresp : getItem resp "Buckets" = Except.ok (JVal.arr recs))
    (h : List.Forall₂ (fun r n => getItem r "Name" = Except.ok (JVal.str n)) recs names) :
    listComp resp = Except.ok (names.map JVal.str) := by
  show (getItem resp "Buckets").bind (fun bs => (iterate bs).bind extractNames) = _
  rw [hresp]
  show (iterate (JVal.arr recs)).bind extractNames = _
  rw [show iterate (JVal.arr recs) = Except.ok recs from rfl]
  show extractNames recs = _
  exact extractNames_forall2 recs names h

/-- A well-formed response admits a name list for its records. -/
theorem wellFormed_names (resp : JVal) (hwf : WellFormedResp resp) :
    ∃ names : List String, listComp resp = Except.ok (names.map JVal.str) := by
  obtain ⟨recs, hresp, hrecs⟩ := hwf
  suffices h : ∃ names, List.Forall₂
      (fun r n => getItem r "Name" = Except.ok (JVal.str n)) recs names by
    obtain ⟨names, hf⟩ := h
    exact ⟨names, listComp_forall2 resp recs names hresp hf⟩
  clear hresp
  induction recs with
  | nil => exact ⟨[], List.Forall₂.nil⟩
  | cons r rs ih =>
    obtain ⟨s, hs⟩ := hrecs r (List.mem_cons_self r rs)
    obtain ⟨names, hf⟩ := ih fun x hx => hrecs x (List.mem_cons_of_mem r hx)
    exact ⟨s :: names, List.Forall₂.cons hs hf⟩

/-- When the pre-`try` steps succeed, the handler returns (rather than
raises) the envelope computed from the capability outcome. -/
theorem lambda_handler_run (ev : PyObj) (w : S3World)
    (h1 : logEvent ev = Except.ok ()) (h2 : w.clientResult = Except.ok ()) :
    lambda_handler ev w = Except.ok (handleListBuckets w.listBuckets) := by
  show (logEvent ev).bind (fun _ => w.clientResult.bind fun _ =>
    Except.ok (handleListBuckets w.listBuckets)) = _
  rw [h1, h2]
  rfl

/-- Whenever the handler returns an envelope at all, it is the envelope
computed from the capability outcome alone. -/
theorem lambda_handler_ok_inv (ev : PyObj) (w : S3World) (r : ResponseEnvelope)
    (h : lambda_handler ev w = Except.ok r) : r = handleListBuckets w.listBuckets := by
  cases hl : logEvent ev with
  | error e =>
    have hrun : lambda_handler ev w = Except.error e := by
      show (logEvent ev).bind (fun _ => w.clientResult.bind fun _ =>
        Except.ok (handleListBuckets w.listBuckets)) = _
      rw [hl]
      rfl
    rw [hrun] at h
    exact Except.noConfusion h
  | ok u =>
    cases hc : w.clientResult with
    | error e =>
      have hrun : lambda_handler ev w = Except.error e := by
        show (logEvent ev).bind (fun _ => w.clientResult.bind fun _ =>
          Except.ok (handleListBuckets w.listBuckets)) = _
        rw [hl, hc]
        rfl
      rw [hrun] at h
      exact Except.noConfusion h
    | ok u2 =>
      have hrun : lambda_handler ev w = Except.ok (handleListBuckets w.listBuckets) := by
        show (logEvent ev).bind (fun _ => w.clientResult.bind fun _ =>
          Except.ok (handleListBuckets w.listBuckets)) = _
        rw [hl, hc]
        rfl
      rw [hrun] at h
      injection h with h4
      exact h4.symm

/-! ### The claims -/

/-- C1: for every successful capability call whose result holds exactly the
two bucket records `[{Name: "a"}, {Name: "b"}]`, the handler returns a
`ResponseEnvelope` with `statusCode = 200` and body equal to the JSON
encoding of `{"message": "Successfully retrieved buckets",
"buckets": ["a", "b"]}`. -/
theorem C1_two_buckets (resp : JVal)
    (h : getItem resp "Buckets" = Except.ok (JVal.arr
      [JVal.obj [("Name", JVal.str "a")], JVal.obj [("Name", JVal.str "b")]])) :
    handleListBuckets (Except.ok resp)
      = ⟨200, dumps (JVal.obj [("message", JVal.str "Successfully retrieved buckets"),
          ("buckets", JVal.arr [JVal.str "a", JVal.str "b"])])⟩ := by
  refine handleListBuckets_ok resp [JVal.str "a", JVal.str "b"] ?_
  exact listComp_forall2 resp _ ["a", "b"] h
    (List.Forall₂.cons rfl (List.Forall₂.cons rfl List.Forall₂.nil))

/-- Witness for C1 at the concrete response `respAB`. -/
theorem C1_witness :
    getItem respAB "Buckets" = Except.ok (JVal.arr
      [JVal.obj [("Name", JVal.str "a")], JVal.obj [("Name", JVal.str "b")]]) ∧
    handleListBuckets (Except.ok respAB)
      = ⟨200, dumps (JVal.obj [("message", JVal.str "Successfully retrieved buckets"),
          ("buckets", JVal.arr [JVal.str "a", JVal.str "b"])])⟩ :=
  ⟨rfl, C1_two_buckets respAB rfl⟩

/-- C2: for every capability call that fails, whatever the error, the
handler catches it and returns a `ResponseEnvelope` (an `Except.ok` result
of `lambda_handler`): the error never propagates out of the handler. -/
theorem C2_failure_caught (ev : PyObj) (w : S3World) (e : PyErr)
    (hlog : logEvent ev = Except.ok ()) (hclient : w.clientResult = Except.ok ())
    (hfail : w.listBuckets = Except.error e) :
    lambda_handler ev w = Except.ok ⟨500, errorBody e⟩ := by
  rw [lambda_handler_run ev w hlog hclient, hfail, handleListBuckets_error]

/-- Witness for C2 at a concrete event and an access-denied failure. -/
theorem C2_witness :
    logEvent (PyObj.jsonLike JVal.null) = Except.ok () ∧
    worldDenied.clientResult = Except.ok () ∧
    worldDenied.listBuckets = Except.error (PyErr.clientError "AccessDenied") ∧
    lambda_handler (PyObj.jsonLike JVal.null) worldDenied
      = Except.ok ⟨500, errorBody (PyErr.clientError "AccessDenied")⟩ :=
  ⟨rfl, rfl, rfl, C2_failure_caught _ _ _ rfl rfl rfl⟩

/-- C3: for every capability call failing with an error whose text
representation is `"AccessDenied"`, the handler returns `statusCode = 500`
and a body that is the JSON encoding of an object whose `message` is
`"Error listing buckets: AccessDenied"`. -/
theorem C3_access_denied (e : PyErr) (h : e.text = "AccessDenied") :
    handleListBuckets (Except.error e)
      = ⟨500, dumps (JVal.obj
          [("message", JVal.str "Error listing buckets: AccessDenied")])⟩ := by
  rw [handleListBuckets_error]
  show (⟨500, errorBody e⟩ : ResponseEnvelope) = _
  rw [errorBody, h]
  rfl

/-- Witness for C3 at a concrete access-denied service error. -/
theorem C3_witness :
    (PyErr.clientError "AccessDenied").text = "AccessDenied" ∧
    handleListBuckets (Except.error (PyErr.clientError "AccessDenied"))
      = ⟨500, dumps (JVal.obj
          [("message", JVal.str "Error listing buckets: AccessDenied")])⟩ :=
  ⟨rfl, C3_access_denied _ rfl⟩

/-- C4: for every successful capability call whose `Buckets` list relates
pointwise to a name list (each record's `Name` is the matching string, in
order), the returned body's `buckets` is exactly those names in the same
order and of the same length: the map over `Name` as a list homomorphism. -/
theorem C4_name_map (resp : JVal) (recs : List JVal) (names : List String)
    (hresp : getItem resp "Buckets" = Except.ok (JVal.arr recs))
    (h : List.Forall₂ (fun r n => getItem r "Name" = Except.ok (JVal.str n)) recs names) :
    handleListBuckets (Except.ok resp) = ⟨200, successBody (names.map JVal.str)⟩ ∧
      parse (handleListBuckets (Except.ok resp)).body
        = some (JVal.obj [("message", JVal.str "Successfully retrieved buckets"),
            ("buckets", JVal.arr (names.map JVal.str))]) := by
  have hcomp := listComp_forall2 resp recs names hresp h
  have henv := handleListBuckets_ok resp _ hcomp
  refine ⟨henv, ?_⟩
  rw [henv]
  show parse (successBody (names.map JVal.str)) = _
  exact parse_dumps _

/-- Witness for C4 at a two-record response whose records carry extra
fields besides `Name`. -/
theorem C4_witness :
    getItem (JVal.obj [("Buckets", JVal.arr
        [JVal.obj [("Name", JVal.str "x"), ("CreationDate", JVal.str "2026")],
         JVal.obj [("Name", JVal.str "y")]])]) "Buckets"
      = Except.ok (JVal.arr
        [JVal.obj [("Name", JVal.str "x"), ("CreationDate", JVal.str "2026")],
         JVal.obj [("Name", JVal.str "y")]]) ∧
    (handleListBuckets (Except.ok (JVal.obj [("Buckets", JVal.arr
        [JVal.obj [("Name", JVal.str "x"), ("CreationDate", JVal.str "2026")],
         JVal.obj [("Name", JVal.str "y")]])]))
      = ⟨200, successBody (["x", "y"].map JVal.str)⟩ ∧
    parse (handleListBuckets (Except.ok (JVal.obj [("Buckets", JVal.arr
        [JVal.obj [("Name", JVal.str "x"), ("CreationDate", JVal.str "2026")],
         JVal.obj [("Name", JVal.str "y")]])]))).body
      = some (JVal.obj [("message", JVal.str "Successfully retrieved buckets"),
          ("buckets", JVal.arr (["x", "y"].map JVal.str))])) :=
  ⟨rfl, C4_name_map _ _ ["x", "y"] rfl
    (List.Forall₂.cons rfl (List.Forall₂.cons rfl List.Forall₂.nil))⟩

/-- C5: for every capability call that succeeds with zero bucket records,
the handler returns `statusCode = 200` and a body whose JSON decoding has
`buckets` equal to the empty list. -/
theorem C5_zero_buckets (resp : JVal)
    (h : getItem resp "Buckets" = Except.ok (JVal.arr [])) :
    (handleListBuckets (Except.ok resp)).statusCode = 200 ∧
      ∃ kvs, parse (handleListBuckets (Except.ok resp)).body = some (JVal.obj kvs) ∧
        kvs.lookup "buckets" = some (JVal.arr []) := by
  have hcomp : listComp resp = Except.ok [] :=
    listComp_forall2 resp [] [] h List.Forall₂.nil
  have henv := handleListBuckets_ok resp [] hcomp
  rw [henv]
  refine ⟨rfl, [("message", JVal.str "Successfully retrieved buckets"),
    ("buckets", JVal.arr [])], ?_, rfl⟩
  show parse (successBody []) = _
  exact parse_dumps _

/-- Witness for C5 at the concrete empty response `respEmpty`. -/
theorem C5_witness :
    getItem respEmpty "Buckets" = Except.ok (JVal.arr []) ∧
    ((handleListBuckets (Except.ok respEmpty)).statusCode = 200 ∧
      ∃ kvs, parse (handleListBuckets (Except.ok respEmpty)).body = some (JVal.obj kvs) ∧
        kvs.lookup "buckets" = some (JVal.arr [])) :=
  ⟨rfl, C5_zero_buckets respEmpty rfl⟩

/-- C6: for every outcome of the capability call — success with records whose
names are strings (the capability's contract), or failure with any error —
the returned body is valid JSON, and parsing it back yields exactly the
described structure: on a 200 answer an object with a message and a
buckets list of strings, on a 500 answer an object with the single
message field. -/
theorem C6_roundtrip (call : Except PyErr JVal)
    (hnames : ∀ resp bs, call = Except.ok resp → listComp resp = Except.ok bs →
      ∃ names : List String, bs = names.map JVal.str) :
    ∃ v, parse (handleListBuckets call).body = some v ∧
      ((handleListBuckets call).statusCode = 200 →
        ∃ names : List String,
          v = JVal.obj [("message", JVal.str "Successfully retrieved buckets"),
            ("buckets", JVal.arr (names.map JVal.str))]) ∧
      ((handleListBuckets call).statusCode = 500 →
        ∃ m : String, v = JVal.obj [("message", JVal.str m)]) := by
  cases call with
  | error e =>
    refine ⟨JVal.obj [("message", JVal.str ("Error listing buckets: " ++ e.text))], ?_, ?_, ?_⟩
    · rw [handleListBuckets_error]
      exact parse_dumps _
    · rw [handleListBuckets_error]
      intro h200
      simp at h200
    · intro h500
      exact ⟨"Error listing buckets: " ++ e.text, rfl⟩
  | ok resp =>
    cases hcomp : listComp resp with
    | error e =>
      refine ⟨JVal.obj [("message", JVal.str ("Error listing buckets: " ++ e.text))], ?_, ?_, ?_⟩
      · rw [handleListBuckets_comp_error resp e hcomp]
        exact parse_dumps _
      · rw [handleListBuckets_comp_error resp e hcomp]
        intro h200
        simp at h200
      · intro h500
        exact ⟨"Error listing buckets: " ++ e.text, rfl⟩
    | ok bs =>
      obtain ⟨names, rfl⟩ := hnames resp bs rfl hcomp
      refine ⟨JVal.obj [("message", JVal.str "Successfully retrieved buckets"),
        ("buckets", JVal.arr (names.map JVal.str))], ?_, ?_, ?_⟩
      · rw [handleListBuckets_ok resp _ hcomp]
        exact parse_dumps _
      · intro h200
        exact ⟨names, rfl⟩
      · rw [handleListBuckets_ok resp _ hcomp]
        intro h500
        simp at h500

/-- Witness for C6 at the concrete successful call `callAB`. -/
theorem C6_witness :
    (∀ resp bs, callAB = Except.ok resp → listComp resp = Except.ok bs →
      ∃ names : List String, bs = names.map JVal.str) ∧
    (∃ v, parse (handleListBuckets callAB).body = some v ∧
      ((handleListBuckets callAB).statusCode = 200 →
        ∃ names : List String,
          v = JVal.obj [("message", JVal.str "Successfully retrieved buckets"),
            ("buckets", JVal.arr (names.map JVal.str))]) ∧
      ((handleListBuckets callAB).statusCode = 500 →
        ∃ m : String, v = JVal.obj [("message", JVal.str m)])) := by
  have hn : ∀ resp bs, callAB = Except.ok resp → listComp resp = Except.ok bs →
      ∃ names : List String, bs = names.map JVal.str := by
    intro resp bs h1 h2
    rw [show callAB = Except.ok respAB from rfl] at h1
    injection h1 with h3
    subst h3
    rw [show listComp respAB = Except.ok [JVal.str "a", JVal.str "b"] from rfl] at h2
    injection h2 with h4
    exact ⟨["a", "b"], h4.symm⟩
  exact ⟨hn, C6_roundtrip callAB hn⟩

/-- C7: the handler's return value is always a well-typed envelope whose
status is 200 exactly when the capability call succeeded (with a response
honouring the capability's contract) and 500 exactly when it failed, and on
failure the decoded body has no buckets field. -/
theorem C7_status_dichotomy (call : Except PyErr JVal)
    (hwf : ∀ resp, call = Except.ok resp → WellFormedResp resp) :
    ((handleListBuckets call).statusCode = 200 ↔ ∃ r, call = Except.ok r) ∧
    ((handleListBuckets call).statusCode = 500 ↔ ∃ e, call = Except.error e) ∧
    (∀ e, call = Except.error e →
      ∃ kvs, parse (handleListBuckets call).body = some (JVal.obj kvs) ∧
        kvs.lookup "buckets" = none) := by
  cases call with
  | error e =>
    rw [handleListBuckets_error]
    refine ⟨⟨fun h => absurd h (by simp), fun hr => ?_⟩,
      ⟨fun _ => ⟨e, rfl⟩, fun _ => rfl⟩, ?_⟩
    · obtain ⟨r, hr⟩ := hr
      exact Except.noConfusion hr
    · intro e2 he
      exact ⟨[("message", JVal.str ("Error listing buckets: " ++ e.text))], parse_dumps _, rfl⟩
  | ok resp =>
    obtain ⟨names, hcomp⟩ := wellFormed_names resp (hwf resp rfl)
    rw [handleListBuckets_ok resp _ hcomp]
    refine ⟨⟨fun _ => ⟨resp, rfl⟩, fun _ => rfl⟩,
      ⟨fun h => absurd h (by simp), fun he => ?_⟩, fun e he => Except.noConfusion he⟩
    obtain ⟨e, he⟩ := he
    exact Except.noConfusion he

/-- Witness for C7 at the concrete successful call `callAB`. -/
theorem C7_witness :
    (∀ resp, callAB = Except.ok resp → WellFormedResp resp) ∧
    (((handleListBuckets callAB).statusCode = 200 ↔
        ∃ r, callAB = Except.ok r) ∧
      ((handleListBuckets callAB).statusCode = 500 ↔
        ∃ e, callAB = Except.error e) ∧
      (∀ e, callAB = Except.error e →
        ∃ kvs, parse (handleListBuckets callAB).body = some (JVal.obj kvs) ∧
          kvs.lookup "buckets" = none)) := by
  have hwf : ∀ resp, callAB = Except.ok resp → WellFormedResp resp := by
    intro resp h
    rw [show callAB = Except.ok respAB from rfl] at h
    injection h with h1
    subst h1
    refine ⟨[JVal.obj [("Name", JVal.str "a")], JVal.obj [("Name", JVal.str "b")]], rfl, ?_⟩
    intro r hr
    simp only [List.mem_cons, List.not_mem_nil, or_false] at hr
    rcases hr with rfl | rfl
    · exact ⟨"a", rfl⟩
    · exact ⟨"b", rfl⟩
  exact ⟨hwf, C7_status_dichotomy callAB hwf⟩

/-- C8: the invocation event never influences the returned envelope: any two
events run against the same capability outcome yield identical envelopes
whenever the handler returns at all. -/
theorem C8_event_noninterference (e1 e2 : PyObj) (w : S3World) (r1 r2 : ResponseEnvelope)
    (h1 : lambda_handler e1 w = Except.ok r1) (h2 : lambda_handler e2 w = Except.ok r2) :
    r1 = r2 := by
  rw [lambda_handler_ok_inv e1 w r1 h1, lambda_handler_ok_inv e2 w r2 h2]

/-- Witness for C8 at two distinct concrete events over the same world. -/
theorem C8_witness :
    lambda_handler (PyObj.jsonLike JVal.null) worldAB
      = Except.ok ⟨200, successBody [JVal.str "a", JVal.str "b"]⟩ ∧
    lambda_handler (PyObj.jsonLike (JVal.str "other event")) worldAB
      = Except.ok ⟨200, successBody [JVal.str "a", JVal.str "b"]⟩ ∧
    (⟨200, successBody [JVal.str "a", JVal.str "b"]⟩ : ResponseEnvelope)
      = ⟨200, successBody [JVal.str "a", JVal.str "b"]⟩ :=
  ⟨rfl, rfl, C8_event_noninterference (PyObj.jsonLike JVal.null)
    (PyObj.jsonLike (JVal.str "other event")) worldAB _ _ rfl rfl⟩

/-- C9: a successful capability call with a malformed response — any response
on which the comprehension raises, such as one lacking the `Buckets` key or a
record lacking `Name` — does not crash the handler: the lookup error is
caught and answered with a 500 envelope whose message embeds the error's
text. -/
theorem C9_malformed_response (resp : JVal) (e : PyErr)
    (h : listComp resp = Except.error e) :
    handleListBuckets (Except.ok resp)
      = ⟨500, dumps (JVal.obj
          [("message", JVal.str ("Error listing buckets: " ++ e.text))])⟩ :=
  handleListBuckets_comp_error resp e h

/-- Witness for C9 at the two malformed responses: one lacking `Buckets`,
one whose record lacks `Name`; the `KeyError` texts appear in the bodies. -/
theorem C9_witness :
    listComp respNoBuckets = Except.error (PyErr.keyError "Buckets") ∧
    listComp respNoName = Except.error (PyErr.keyError "Name") ∧
    handleListBuckets (Except.ok respNoBuckets)
      = ⟨500, dumps (JVal.obj [("message",
          JVal.str ("Error listing buckets: " ++ (PyErr.keyError "Buckets").text))])⟩ ∧
    handleListBuckets (Except.ok respNoName)
      = ⟨500, dumps (JVal.obj [("message",
          JVal.str ("Error listing buckets: " ++ (PyErr.keyError "Name").text))])⟩ :=
  ⟨rfl, rfl, C9_malformed_response _ _ rfl, C9_malformed_response _ _ rfl⟩

/-- C10: the steps before the capability call are outside the handler's
error boundary: an event that `json.dumps` rejects, or a failing client
construction, makes `lambda_handler` raise, and no envelope is returned. -/
theorem C10_pre_try_raises :
    lambda_handler (PyObj.unserializable "set") worldAB
        = Except.error (PyErr.typeError "Object of type set is not JSON serializable") ∧
      lambda_handler (PyObj.jsonLike JVal.null) worldNoClient
        = Except.error (PyErr.clientError "Could not connect to the endpoint URL") :=
  ⟨rfl, rfl⟩
